import Mathlib

/-!
Verification of the document vector-store cache and retrieval layer of a
RAG web application.  The repository holds two parallel generations of the
application:

* the current generation: `app.py`, `rag/search_service.py`,
  `storage/blob_service.py`;
* the previous generation under `PREVIOUSPROJECTATTEMPT/`: `app.py`,
  `rag/vectorstores.py`, `rag/doc_index.py`, `storage/blob.py`.

Each definition below is a shallow embedding of one function of one of the
two generations; the doc comment names the source file and function.
External capabilities (the Azure blob store, the FAISS loader, the chat
model stream) enter as explicit parameters: a listing is a list of blob
names, a load outcome is an `Except`, a model stream is a list of strings.
Strings are Lean `String`s; where the Python code slices and splits, the
embedding works on the underlying `List Char`.  Floating-point similarity
scores are never mentioned by any claim and are omitted from the chunk
records.
-/

/-! ### Character and string helpers -/

/-- Python `\s` whitespace class (ASCII subset used by `re`). -/
def isWsChar (c : Char) : Bool :=
  c = ' ' || c = '\t' || c = '\n' || c = '\r' || c = '\x0b' || c = '\x0c'

/-- Python `\d` digit class. -/
def isDigitChar (c : Char) : Bool :=
  '0' ≤ c && c ≤ '9'

/-- ASCII lower-casing, as used by `re.IGNORECASE` on ASCII patterns. -/
def lowerChar (c : Char) : Char :=
  if 'A' ≤ c ∧ c ≤ 'Z' then Char.ofNat (c.toNat + 32) else c

/-- Decimal digits to a natural number. -/
def charsToNat (ds : List Char) : Nat :=
  ds.foldl (fun a c => a * 10 + (c.toNat - 48)) 0

/-- Python `str.split('/')`: splits on `'/'`, keeping empty segments. -/
def splitSlash : List Char → List (List Char)
  | [] => [[]]
  | c :: rest =>
    if c = '/' then [] :: splitSlash rest
    else
      match splitSlash rest with
      | [] => [[c]]
      | s :: ss => (c :: s) :: ss

/-- Python `'/'.join(parts)`. -/
def joinSlash : List (List Char) → List Char
  | [] => []
  | [s] => s
  | s :: rest => s ++ '/' :: joinSlash rest

/-- Python `s.strip('/')` (also covers the redundant `rstrip('/')`). -/
def stripSlashes (l : List Char) : List Char :=
  ((l.dropWhile (fun c => c = '/')).reverse.dropWhile (fun c => c = '/')).reverse

/-- Python `s.endswith(suf)`, on character lists. -/
def endsWithL (suf l : List Char) : Bool :=
  l.reverse.take suf.length == suf.reverse

/-- Python `'..' in s`: some adjacent pair of dots occurs in the string. -/
def hasDotDot : List Char → Bool
  | a :: b :: rest => (a = '.' && b = '.') || hasDotDot (b :: rest)
  | _ => false

/-- Python `s.startswith('/')`. -/
def startsSlash : List Char → Bool
  | c :: _ => c = '/'
  | [] => false

/-- Python `s.replace('\\', '/')`. -/
def normalizePath (p : List Char) : List Char :=
  p.map (fun c => if c = '\\' then '/' else c)

/-- Python `s.replace('//', '/')` (left-to-right, non-overlapping). -/
def collapseSlash : List Char → List Char
  | '/' :: '/' :: rest => '/' :: collapseSlash rest
  | c :: rest => c :: collapseSlash rest
  | [] => []

/-- `os.path.splitext(name)[0]`: the name without its final extension.
CPython skips the leading dots of the name, so `.pdf` and `..pdf` keep
their dot and are their own stem. -/
def splitextStem (l : List Char) : List Char :=
  let stem := (((l.reverse.dropWhile (fun c => c ≠ '.')).drop 1)).reverse
  if stem.all (fun c => c = '.') then l else stem

/-- Python `doc_id.split('/')[-1]`, the label used by the current
generation's `ask_stream` (`app.py`). -/
def lastSegment (s : String) : String :=
  match (splitSlash s.data).getLast? with
  | some seg => String.mk seg
  | none => s

/-! ### Sorted deduplication (`sorted(set(xs))`) -/

/-- Insert into a strictly-sorted list, dropping duplicates. -/
def insertUniq (a : Nat) : List Nat → List Nat
  | [] => [a]
  | b :: bs =>
    if a < b then a :: b :: bs
    else if a = b then b :: bs
    else b :: insertUniq a bs

/-- Python `sorted(list(set(xs)))` for natural-number pages: the
deduplicated ascending list of the elements of `xs`. -/
def sortedUnique (xs : List Nat) : List Nat :=
  xs.foldr insertUniq []

/-- Boolean strict sortedness: each element is less than the next. -/
def strictSortedB : List Nat → Bool
  | a :: b :: rest => a < b && strictSortedB (b :: rest)
  | _ => true

/-- Python `min(l)` on a nonempty list (`0` as junk value on `[]`). -/
def minNat : List Nat → Nat
  | [] => 0
  | x :: xs => xs.foldl Nat.min x

/-! ### Retrieved chunks and page processing
(current generation, `rag/search_service.py`, `SearchService.search`) -/

/-- A raw chunk as returned by FAISS: optional `page` metadata plus the
chunk body (`doc.metadata.get('page')`, `doc.page_content`).  The
floating-point similarity score is not mentioned by any claim and is
omitted. -/
structure RawChunk where
  pageMeta : Option Nat
  content : String
deriving DecidableEq, Repr

/-- A processed result entry (`{'content': ..., 'page': ...}`). -/
structure ProcChunk where
  content : String
  page : Nat
deriving DecidableEq, Repr

/-- `re.search(r'Page\s+(\d+)', body, re.IGNORECASE)` at one position:
match `Page` case-insensitively, one-or-more whitespace, then the maximal
digit run, returning its value. -/
def matchPageHere (l : List Char) : Option Nat :=
  match l with
  | c1 :: c2 :: c3 :: c4 :: rest =>
    if lowerChar c1 = 'p' ∧ lowerChar c2 = 'a' ∧ lowerChar c3 = 'g' ∧ lowerChar c4 = 'e' then
      let ws := rest.takeWhile isWsChar
      let afterWs := rest.dropWhile isWsChar
      let ds := afterWs.takeWhile isDigitChar
      if ws ≠ [] ∧ ds ≠ [] then some (charsToNat ds) else none
    else none
  | _ => none

/-- Leftmost match of `re.search(r'Page\s+(\d+)', body, re.IGNORECASE)`. -/
def findPageMarker : List Char → Option Nat
  | [] => none
  | c :: rest =>
    match matchPageHere (c :: rest) with
    | some n => some n
    | none => findPageMarker rest

/-- The regex fallback of `SearchService.search` on a chunk body. -/
def extractPageNum (s : String) : Option Nat :=
  findPageMarker s.data

/-- Page resolution of `SearchService.search` (`rag/search_service.py`):
a metadata page is incremented by one; otherwise the regex fallback is
consulted; a result that is `None` or `0` (Python falsiness of
`page_num`) defaults to `1`. -/
def processPage (pageMeta : Option Nat) (content : String) : Nat :=
  let p : Option Nat :=
    match pageMeta with
    | some n => some (n + 1)
    | none => extractPageNum content
  match p with
  | none => 1
  | some n => if n = 0 then 1 else n

/-- One entry of `processed_results` in `SearchService.search`. -/
def procChunk (d : RawChunk) : ProcChunk :=
  ⟨d.content, processPage d.pageMeta d.content⟩

/-! ### Current generation search (`rag/search_service.py`) -/

/-- `index.faiss`, the vector-index artifact file. -/
def idxFileName : String := "index.faiss"

/-- `index.pkl`, the metadata/docstore artifact file. -/
def pklFileName : String := "index.pkl"

/-- The current generation's cached-on-disk test in `SearchService.search`:
`not os.path.exists(target_dir) or not os.listdir(target_dir)` — a
download is needed only when the cache directory is missing (`none`) or
empty. -/
def curNeedsDownload : Option (List String) → Bool
  | none => true
  | some fs => fs.isEmpty

/-- `SearchService.search` (current generation), with the external world
as parameters: `dirFiles` is the listing of the local cache directory
(`none` when it does not exist), `dlFiles` the files the blob download
returns when one is attempted, and `loadRes` the outcome of
`FAISS.load_local` (the `try/except` turns a load failure into `[]`).
Returns `processed_results`. -/
def searchCur (dirFiles : Option (List String)) (dlFiles : List String)
    (loadRes : Except Unit (List RawChunk)) : List ProcChunk :=
  if curNeedsDownload dirFiles && dlFiles.isEmpty then []
  else
    match loadRes with
    | .error _ => []
    | .ok docs => docs.map procChunk

/-! ### Wire records (`ask_stream`, both generations) -/

/-- One newline-delimited JSON object of the `ask_stream` response.  The
current generation's metadata record carries no `first_page` field, so
that field is optional here. -/
inductive Rec where
  | meta (pages : List Nat) (pdfUrl : String) (firstPage : Option Nat) (docLabel : String)
  | token (content : String)
deriving DecidableEq, Repr

/-- `ask_stream` of the current generation (`app.py`): on empty results a
single fixed token record and nothing else; otherwise a metadata record
(without `first_page`) built from the deduplicated sorted processed
pages, a count token, then one token per snippet. -/
def askStreamCur (results : List ProcChunk) (pdfUrl : String) (docId : String) : List Rec :=
  if results.isEmpty then
    [Rec.token "No relevant information found."]
  else
    let pages := sortedUnique (results.map (fun r => r.page))
    Rec.meta pages pdfUrl none (lastSegment docId)
      :: Rec.token ("Found " ++ toString results.length ++ " relevant snippets:\n\n")
      :: results.map (fun r =>
          Rec.token ("**Page " ++ toString r.page ++ "**:\n" ++ r.content ++ "\n\n"))

/-! ### Previous generation page normalization and ask_stream
(`PREVIOUSPROJECTATTEMPT/app.py`) -/

/-- A retrieved document of the previous generation: `page` metadata is
present or absent, plus the chunk body. -/
structure PrevDoc where
  pageMeta : Option Nat
  content : String
deriving DecidableEq, Repr

/-- `[d.metadata.get("page") for d in docs if "page" in d.metadata]`:
chunks without page metadata are omitted. -/
def pagesRawOf (docs : List PrevDoc) : List Nat :=
  docs.filterMap (fun d => d.pageMeta)

/-- Page normalization of the previous generation's `ask` / `ask_stream`:
`unique_pages_raw = sorted(set(pages_raw))`; if that list is nonempty
with minimum `0`, every value and the viewer anchor are incremented;
otherwise the list is used as-is and the anchor is its head, or `1` when
empty.  Returns `(pages_display, first_page_for_viewer)`. -/
def normalizePrev (raw : List Nat) : List Nat × Nat :=
  let u := sortedUnique raw
  match u with
  | [] => ([], 1)
  | x :: xs =>
    if minNat (x :: xs) = 0 then ((x :: xs).map (fun p => p + 1), x + 1)
    else (x :: xs, x)

/-- The fixed empty-retrieval message of the previous generation. -/
def noInfoMsg : String := "I couldn't find relevant information in this document."

/-- `ask_stream` of the previous generation
(`PREVIOUSPROJECTATTEMPT/app.py`): with no retrieved chunks, a metadata
record with empty pages and `first_page` 1 followed by the fixed message
(the model stream is never consulted); otherwise the metadata record from
`normalizePrev` followed by one token per nonempty model stream fragment
(`if content:`). -/
def askStreamPrev (docs : List PrevDoc) (pdfUrl docLabel : String)
    (llmStream : List String) : List Rec :=
  if docs.isEmpty then
    [Rec.meta [] pdfUrl (some 1) docLabel, Rec.token noInfoMsg]
  else
    let np := normalizePrev (pagesRawOf docs)
    Rec.meta np.1 pdfUrl (some np.2) docLabel
      :: (llmStream.filter (fun s => !s.isEmpty)).map Rec.token

/-! ### Previous generation vectorstore cache
(`PREVIOUSPROJECTATTEMPT/rag/vectorstores.py`) -/

/-- `VectorstoreManager._is_cached_on_disk`: both artifact files must be
present in the local directory (modelled as its file listing). -/
def isCachedOnDisk (files : List String) : Bool :=
  files.contains idxFileName && files.contains pklFileName

/-- One sequential run of `VectorstoreManager.get_vectorstore` for a
fixed `doc_id`: `mem` is the in-memory cache entry, `diskFiles` the local
directory listing, `loadRes` the outcome of `FAISS.load_local` (indexes
are identified by numbers).  Returns the loaded index and whether the
blob download was performed; a load failure propagates — the method has
no `try/except`. -/
def getVectorstorePrevRun (mem : Option Nat) (diskFiles : List String)
    (loadRes : Except Unit Nat) : Except Unit (Nat × Bool) :=
  match mem with
  | some v => Except.ok (v, false)
  | none =>
    let dl := ! isCachedOnDisk diskFiles
    match loadRes with
    | Except.error e => Except.error e
    | Except.ok v => Except.ok (v, dl)

/-- `VectorstoreManager._local_dir_for_doc`, step 1:
`doc_id.replace("\\", "/")`. -/
def replaceBack (s : List Char) : List Char :=
  s.map (fun c => if c = '\\' then '/' else c)

/-- `VectorstoreManager._local_dir_for_doc`, step 2:
`.replace("/", "__")`. -/
def slashToDunder : List Char → List Char
  | [] => []
  | c :: rest =>
    if c = '/' then '_' :: '_' :: slashToDunder rest
    else c :: slashToDunder rest

/-- `VectorstoreManager._local_dir_for_doc`: the filesystem-safe cache
directory name for a document id. -/
def localDirForDoc (docId : String) : List Char :=
  slashToDunder (replaceBack docId.data)

/-! ### Two-thread interleaving model of `get_vectorstore`
(`PREVIOUSPROJECTATTEMPT/rag/vectorstores.py`)

The method takes no lock; its steps are modelled at the granularity of
its shared-state accesses: read the memory cache, check the disk cache,
download, load, store into the memory cache. -/

/-- Program counter of one `get_vectorstore` call. -/
inductive VsPc where
  | start
  | checkDisk
  | doDownload
  | doLoad
  | doStore
  | done
deriving DecidableEq, Repr

/-- Shared state: the per-doc memory cache entry, whether the disk cache
holds both artifacts, and counters of performed downloads and loads.
Loaded indexes are identified by their load ordinal, so two separate
loads yield two distinct index objects. -/
structure VsShared where
  mem : Option Nat
  diskCached : Bool
  downloads : Nat
  loads : Nat
deriving DecidableEq, Repr

/-- One thread: its program counter and the index reference it holds. -/
structure VsThread where
  pc : VsPc
  res : Option Nat
deriving DecidableEq, Repr

/-- One atomic step of a `get_vectorstore` call. -/
def stepVs (s : VsShared) (t : VsThread) : VsShared × VsThread :=
  match t.pc with
  | .start =>
    match s.mem with
    | some v => (s, ⟨.done, some v⟩)
    | none => (s, ⟨.checkDisk, t.res⟩)
  | .checkDisk =>
    if s.diskCached then (s, ⟨.doLoad, t.res⟩) else (s, ⟨.doDownload, t.res⟩)
  | .doDownload =>
    ({ s with diskCached := true, downloads := s.downloads + 1 }, ⟨.doLoad, t.res⟩)
  | .doLoad =>
    ({ s with loads := s.loads + 1 }, ⟨.doStore, some s.loads⟩)
  | .doStore =>
    ({ s with mem := t.res }, ⟨.done, t.res⟩)
  | .done => (s, t)

/-- Two concurrent calls for the same `doc_id`. -/
structure VsConfig where
  sh : VsShared
  t1 : VsThread
  t2 : VsThread
deriving DecidableEq, Repr

/-- Run the thread selected by the scheduler (`false` = first call). -/
def stepSched (c : VsConfig) (who : Bool) : VsConfig :=
  if who then
    let st := stepVs c.sh c.t2
    ⟨st.1, c.t1, st.2⟩
  else
    let st := stepVs c.sh c.t1
    ⟨st.1, st.2, c.t2⟩

/-- Execute a schedule. -/
def runSched (sched : List Bool) (c : VsConfig) : VsConfig :=
  sched.foldl stepSched c

/-- Cold cache: nothing in memory, nothing on disk. -/
def coldConfig : VsConfig :=
  ⟨⟨none, false, 0, 0⟩, ⟨.start, none⟩, ⟨.start, none⟩⟩

/-- An interleaving in which both calls pass the cache checks before
either downloads. -/
def racySched : List Bool :=
  [false, true, false, true, false, true, false, false, true, true]

/-- The sequential schedule: the first call runs to completion, then the
second. -/
def seqSched : List Bool :=
  [false, false, false, false, false, true, true, true, true, true]

/-! ### Catalog builder, previous generation
(`PREVIOUSPROJECTATTEMPT/rag/doc_index.py`) -/

/-- One catalog entry (`{id, label, year, pdf_rel_path, vs_rel_path}`). -/
structure DocEntry where
  id : String
  label : String
  year : String
  pdfRelPath : String
  vsRelPath : String
deriving DecidableEq, Repr

/-- The catalog: category to year to entries, in insertion order as a
Python dict. -/
abbrev Catalog := List (String × List (String × List DocEntry))

/-- `index.setdefault(category, {}).setdefault(year, []).append(doc)`,
inner level. -/
def yearInsert {α : Type} (yr : String) (e : α) :
    List (String × List α) → List (String × List α)
  | [] => [(yr, [e])]
  | (y, es) :: rest =>
    if y = yr then (y, es ++ [e]) :: rest
    else (y, es) :: yearInsert yr e rest

/-- `index.setdefault(category, {}).setdefault(year, []).append(doc)`. -/
def bucketInsert {α : Type} (cat yr : String) (e : α) :
    List (String × List (String × List α)) → List (String × List (String × List α))
  | [] => [(cat, [(yr, [e])])]
  | (c, ys) :: rest =>
    if c = cat then (c, yearInsert yr e ys) :: rest
    else (c, ys) :: bucketInsert cat yr e rest

/-- `"/index.faiss"`, the retained artifact suffix. -/
def idxSufChars : List Char := "/index.faiss".data

/-- Ordering of catalog entries by label, the sort key of
`build_doc_index_from_blob`. -/
def labelRel (a b : DocEntry) : Prop := a.label ≤ b.label

instance : DecidableRel labelRel := fun a b =>
  inferInstanceAs (Decidable (a.label ≤ b.label))

instance : IsTotal DocEntry labelRel := ⟨fun a b => le_total a.label b.label⟩

instance : IsTrans DocEntry labelRel := ⟨fun _ _ _ h h' => le_trans h h'⟩

/-- The loop body of `build_doc_index_from_blob`: keep names ending in
`/index.faiss`, slice out the doc id, skip it when empty, split it into
nonempty segments, and derive category, year and label with their `root`
and shallow-path defaults. -/
def catalogAdd (pre : List Char) (idx : Catalog) (nameStr : String) : Catalog :=
  let name := nameStr.data
  if endsWithL idxSufChars name then
    let docId := (name.drop pre.length).take (name.length - pre.length - idxSufChars.length)
    if docId.isEmpty then idx
    else
      let parts := (splitSlash docId).filter (fun p => ¬ p.isEmpty)
      let category := match parts with
        | p0 :: _ => String.mk p0
        | [] => "root"
      let year := match parts with
        | _ :: p1 :: _ => String.mk p1
        | _ => "root"
      let label := match parts with
        | _ :: _ :: p2 :: more => String.mk (joinSlash (p2 :: more))
        | [] => String.mk docId
        | ps => String.mk (ps.getLastD [])
      bucketInsert category year
        ⟨String.mk docId, label, year, String.mk (docId ++ ".pdf".data), String.mk docId⟩ idx
  else idx

/-- The final pass of `build_doc_index_from_blob`: sort every
(category, year) bucket by label (Python `sorted` is a stable sort;
insertion sort is the stable sort of the same key order). -/
def sortCatalog (c : Catalog) : Catalog :=
  c.map (fun p => (p.1, p.2.map (fun q => (q.1, List.insertionSort labelRel q.2))))

/-- `build_doc_index_from_blob` (previous generation): scan the names the
blob listing yields and build the sorted catalog.  The listing capability
is the `names` parameter. -/
def buildDocIndexFromBlob (vsPreStr : String) (names : List String) : Catalog :=
  let pre := stripSlashes vsPreStr.data ++ ['/']
  sortCatalog (names.foldl (catalogAdd pre) [])

/-- Catalog-unavailable failure of the catalog build. -/
inductive CatalogErr where
  | catalogUnavailable
deriving DecidableEq, Repr

/-- `build_doc_index_from_blob` under a listing that yields `names` and
then raises when `failed` is true: the function has no exception handler,
so a mid-scan listing failure aborts the whole build and the partially
built index is discarded. -/
def buildDocIndexE (vsPreStr : String) (names : List String) (failed : Bool) :
    Except CatalogErr Catalog :=
  if failed then Except.error CatalogErr.catalogUnavailable
  else Except.ok (buildDocIndexFromBlob vsPreStr names)

/-- Look up the entry list of one (category, year) bucket. -/
def catalogBucket (c : Catalog) (cat yr : String) : Option (List DocEntry) :=
  match List.lookup cat c with
  | none => none
  | some ys => List.lookup yr ys

/-! ### Catalog builder, current generation
(`storage/blob_service.py`, `BlobService.list_blobs_hierarchy`) -/

/-- One file entry of the current generation's hierarchy
(`{'name', 'blob_path', 'doc_id'}`). -/
structure PdfEntry where
  name : String
  blobPath : String
  docId : String
deriving DecidableEq, Repr

/-- The current generation's hierarchy: category to year to entries. -/
abbrev HierCur := List (String × List (String × List PdfEntry))

/-- The loop body of `list_blobs_hierarchy`: keep names ending in `.pdf`
whose `split('/')` has at least four parts; category is part 1, year part
2, filename the last part, and the doc id re-joins them around the
filename stem. -/
def addPdfBlob (h : HierCur) (nameStr : String) : HierCur :=
  let name := nameStr.data
  if endsWithL ".pdf".data name then
    match splitSlash name with
    | _ :: p1 :: p2 :: p3 :: more =>
      let filename := List.getLastD more p3
      let docId := String.mk (p1 ++ '/' :: p2 ++ '/' :: splitextStem filename)
      bucketInsert (String.mk p1) (String.mk p2)
        (⟨String.mk filename, nameStr, docId⟩ : PdfEntry) h
    | _ => h
  else h

/-- `BlobService.list_blobs_hierarchy` under a listing that yields
`names` and then raises when `listingFailedMidScan` is true: the whole
loop sits in a `try/except Exception` that only prints, so the partially
built hierarchy is returned whether or not the listing failed. -/
def listBlobsHierarchy (names : List String) (listingFailedMidScan : Bool) : HierCur :=
  names.foldl addPdfBlob []

/-! ### PDF serving (`PREVIOUSPROJECTATTEMPT/app.py`, `serve_pdf`) -/

/-- An object-store operation performed while serving a PDF. -/
inductive StoreOp where
  | existsCheck (blobName : List Char)
  | streamBlob (blobName : List Char)
deriving DecidableEq, Repr

/-- Outcome of `serve_pdf`. -/
inductive PdfResult where
  | invalidPath
  | notFound (path : List Char)
  | pdfStream (blobName : List Char)
deriving DecidableEq, Repr

/-- The claim's notion of a parent-directory segment: the normalized path
has `..` as one of its `/`-separated segments. -/
def hasParentSegment (p : List Char) : Bool :=
  decide (['.', '.'] ∈ splitSlash (normalizePath p))

/-- The claim's notion of beginning with a path separator. -/
def startsWithSep : List Char → Bool
  | c :: _ => c = '/' || c = '\\'
  | [] => false

/-- `serve_pdf`: normalize backslashes, reject paths containing `..` or
starting with `/` before any store access, otherwise check existence and
stream.  The second component records the object-store calls made, in
order; `ex` is the store's `blob_exists`. -/
def servePdf (docPath : List Char) (pdfPre : List Char) (ex : List Char → Bool) :
    PdfResult × List StoreOp :=
  let norm := normalizePath docPath
  if hasDotDot norm || startsSlash norm then (.invalidPath, [])
  else
    let blobName := collapseSlash (pdfPre ++ '/' :: norm)
    if ex blobName then (.pdfStream blobName, [.existsCheck blobName, .streamBlob blobName])
    else (.notFound docPath, [.existsCheck blobName])

/-! ## Supporting lemmas -/

/-- Membership in `insertUniq`. -/
theorem mem_insertUniq (a x : Nat) (l : List Nat) :
    x ∈ insertUniq a l ↔ x = a ∨ x ∈ l := by
  induction l with
  | nil => simp [insertUniq]
  | cons b bs ih =>
    unfold insertUniq
    split_ifs with h1 h2
    · simp only [List.mem_cons]
    · subst h2
      simp only [List.mem_cons]
      tauto
    · simp only [List.mem_cons, ih]
      tauto

/-- Strict sortedness of a cons, as the head bounding the tail. -/
theorem strictSortedB_cons_iff (x : Nat) (xs : List Nat) :
    strictSortedB (x :: xs) = true ↔ strictSortedB xs = true ∧ ∀ y ∈ xs, x < y := by
  induction xs generalizing x with
  | nil => simp [strictSortedB]
  | cons y ys ih =>
    show (decide (x < y) && strictSortedB (y :: ys)) = true ↔ _
    simp only [Bool.and_eq_true, decide_eq_true_eq]
    constructor
    · rintro ⟨hxy, hs⟩
      refine ⟨hs, ?_⟩
      intro z hz
      rcases List.mem_cons.mp hz with rfl | hz
      · exact hxy
      · exact lt_trans hxy (((ih y).mp hs).2 z hz)
    · rintro ⟨hs, hall⟩
      exact ⟨hall y (List.mem_cons_self y ys), hs⟩

/-- `insertUniq` preserves strict sortedness. -/
theorem strictSortedB_insertUniq (a : Nat) (l : List Nat)
    (h : strictSortedB l = true) : strictSortedB (insertUniq a l) = true := by
  induction l with
  | nil => rfl
  | cons b bs ih =>
    have hb := (strictSortedB_cons_iff b bs).mp h
    unfold insertUniq
    split_ifs with h1 h2
    · rw [strictSortedB_cons_iff]
      refine ⟨h, ?_⟩
      intro y hy
      rcases List.mem_cons.mp hy with rfl | hy
      · exact h1
      · exact lt_trans h1 (hb.2 y hy)
    · exact h
    · have hba : b < a := by omega
      rw [strictSortedB_cons_iff]
      refine ⟨ih hb.1, ?_⟩
      intro y hy
      rcases (mem_insertUniq a y bs).mp hy with rfl | hy
      · exact hba
      · exact hb.2 y hy

/-- `sortedUnique` yields a strictly ascending list. -/
theorem strictSortedB_sortedUnique (xs : List Nat) :
    strictSortedB (sortedUnique xs) = true := by
  induction xs with
  | nil => rfl
  | cons x xs ih => exact strictSortedB_insertUniq x _ ih

/-- `sortedUnique` preserves membership. -/
theorem mem_sortedUnique (x : Nat) (xs : List Nat) :
    x ∈ sortedUnique xs ↔ x ∈ xs := by
  induction xs with
  | nil => simp [sortedUnique]
  | cons y ys ih =>
    show x ∈ insertUniq y (sortedUnique ys) ↔ _
    rw [mem_insertUniq, ih]
    simp [List.mem_cons]

/-- A fold of `Nat.min` stays below its seed. -/
theorem foldlMin_le_seed (xs : List Nat) : ∀ x : Nat, xs.foldl Nat.min x ≤ x := by
  induction xs with
  | nil => intro x; exact le_refl x
  | cons z zs ih =>
    intro x
    simp only [List.foldl_cons]
    exact le_trans (ih (Nat.min x z)) (min_le_left x z)

/-- A fold of `Nat.min` lands in the folded list. -/
theorem foldlMin_mem (xs : List Nat) : ∀ x : Nat, xs.foldl Nat.min x ∈ x :: xs := by
  induction xs with
  | nil => intro x; simp
  | cons y ys ih =>
    intro x
    simp only [List.foldl_cons]
    rcases List.mem_cons.mp (ih (Nat.min x y)) with h | h
    · have hxy : Nat.min x y = x ∨ Nat.min x y = y := by
        show min x y = x ∨ min x y = y
        rw [min_def]
        split <;> simp
      rcases hxy with hxy | hxy
      · rw [h, hxy]
        exact List.mem_cons_self _ _
      · rw [h, hxy]
        exact List.mem_cons_of_mem _ (List.mem_cons_self _ _)
    · exact List.mem_cons_of_mem _ (List.mem_cons_of_mem _ h)

/-- A fold of `Nat.min` bounds every element of the list and the seed. -/
theorem foldlMin_le (xs : List Nat) : ∀ x y : Nat, y ∈ x :: xs → xs.foldl Nat.min x ≤ y := by
  induction xs with
  | nil =>
    intro x y hy
    rcases List.mem_cons.mp hy with rfl | hy
    · exact le_refl y
    · simp at hy
  | cons z zs ih =>
    intro x y hy
    simp only [List.foldl_cons]
    rcases List.mem_cons.mp hy with rfl | hy
    · exact le_trans (foldlMin_le_seed zs (Nat.min y z)) (min_le_left y z)
    · rcases List.mem_cons.mp hy with rfl | hy
      · exact le_trans (foldlMin_le_seed zs (Nat.min x y)) (min_le_right x y)
      · exact ih (Nat.min x z) y (List.mem_cons_of_mem _ hy)

/-! ## C1: wire framing of `ask_stream` -/

/-- C1 (counterexample): in the current generation's `ask_stream`
(`app.py`), an empty retrieval emits a single fixed token record and no
metadata record at all, and a non-empty retrieval emits a metadata record
with no `first_page` field — so the claim that every answer invocation
emits a metadata record first, with a `first_page` field, and on empty
retrieval a metadata record with `pages` `[]` and `first_page` `1`, is
false on this generation. -/
theorem c1_counterexample :
    askStreamCur [] "u" "cat/2020/d" = [Rec.token "No relevant information found."]
    ∧ askStreamCur [⟨"body", 2⟩] "u" "cat/2020/d"
        = [Rec.meta [2] "u" none "d",
           Rec.token "Found 1 relevant snippets:\n\n",
           Rec.token "**Page 2**:\nbody\n\n"] := ⟨rfl, rfl⟩

/-- C1 (amended): in the previous generation's `ask_stream`
(`PREVIOUSPROJECTATTEMPT/app.py`), the output always begins with exactly
one metadata record carrying `pages`, `pdf_url`, `first_page` and
`doc_label`, followed only by token content records; when retrieval
returns zero chunks the output is exactly the metadata record with
`pages` `[]` and `first_page` `1` followed by the single fixed
no-relevant-information content record, and the chat model's stream is
not consulted. -/
theorem c1_wire_framing_amended (docs : List PrevDoc) (url lbl : String) (llm : List String) :
    (∃ ps fp rest, askStreamPrev docs url lbl llm = Rec.meta ps url (some fp) lbl :: rest
        ∧ ∀ r ∈ rest, ∃ s, r = Rec.token s)
    ∧ (docs = [] →
        askStreamPrev docs url lbl llm = [Rec.meta [] url (some 1) lbl, Rec.token noInfoMsg]
        ∧ ∀ llm2, askStreamPrev docs url lbl llm2 = askStreamPrev docs url lbl llm) := by
  constructor
  · cases docs with
    | nil =>
      refine ⟨[], 1, [Rec.token noInfoMsg], rfl, ?_⟩
      intro r hr
      rcases List.mem_cons.mp hr with rfl | hr
      · exact ⟨noInfoMsg, rfl⟩
      · simp at hr
    | cons d ds =>
      refine ⟨_, _, _, rfl, ?_⟩
      intro r hr
      rcases List.mem_map.mp hr with ⟨s, _, rfl⟩
      exact ⟨s, rfl⟩
  · intro hd
    subst hd
    exact ⟨rfl, fun llm2 => rfl⟩

/-- C1 (witness): the empty-retrieval instance of the amended theorem. -/
theorem c1_witness :
    askStreamPrev [] "u" "d" ["x"] = [Rec.meta [] "u" (some 1) "d", Rec.token noInfoMsg] :=
  ((c1_wire_framing_amended [] "u" "d" ["x"]).2 rfl).1

/-! ## C2: page normalization -/

/-- C2 (counterexample): in the current generation
(`rag/search_service.py` feeding `app.py`), every metadata page value is
incremented unconditionally, so chunks with metadata pages `{1, 3}`
produce normalized pages `[2, 4]`, not the claimed `[1, 3]`. -/
theorem c2_counterexample :
    askStreamCur (searchCur (some [idxFileName, pklFileName]) []
        (Except.ok [⟨some 1, "a"⟩, ⟨some 3, "b"⟩])) "u" "cat/2020/d"
      = [Rec.meta [2, 4] "u" none "d",
         Rec.token "Found 2 relevant snippets:\n\n",
         Rec.token "**Page 2**:\na\n\n",
         Rec.token "**Page 4**:\nb\n\n"]
    ∧ ([2, 4] : List Nat) ≠ [1, 3] := ⟨rfl, by decide⟩

/-- C2 (amended): in the previous generation's normalization
(`PREVIOUSPROJECTATTEMPT/app.py`), the metadata page values are
deduplicated and sorted ascending (the result is strictly sorted and has
exactly the members of the input), and the whole set is incremented by
one exactly when it contains `0` — equivalently, is non-empty with
minimum `0` — and is returned unchanged otherwise; metadata pages
`{0, 2, 4}` normalize to `[1, 3, 5]` with `first_page` `1`, and `{1, 3}`
to `[1, 3]` with `first_page` `1`. -/
theorem c2_page_normalization_amended (raw : List Nat) :
    strictSortedB (sortedUnique raw) = true
    ∧ (∀ x, x ∈ sortedUnique raw ↔ x ∈ raw)
    ∧ (normalizePrev raw).1
        = (if 0 ∈ raw then (sortedUnique raw).map (fun p => p + 1) else sortedUnique raw)
    ∧ normalizePrev [0, 2, 4] = ([1, 3, 5], 1)
    ∧ normalizePrev [1, 3] = ([1, 3], 1) := by
  refine ⟨strictSortedB_sortedUnique raw, fun x => mem_sortedUnique x raw, ?_, by decide, by decide⟩
  unfold normalizePrev
  cases h : sortedUnique raw with
  | nil =>
    have h0 : (0 : Nat) ∉ raw := by
      intro h0
      have hm := (mem_sortedUnique 0 raw).mpr h0
      rw [h] at hm
      simp at hm
    simp [h0]
  | cons x xs =>
    have hiff : minNat (x :: xs) = 0 ↔ 0 ∈ raw := by
      constructor
      · intro h0
        have hm : minNat (x :: xs) ∈ x :: xs := foldlMin_mem xs x
        rw [h0] at hm
        exact (mem_sortedUnique 0 raw).mp (by rw [h]; exact hm)
      · intro h0
        have h1 : (0 : Nat) ∈ x :: xs := by
          rw [← h]
          exact (mem_sortedUnique 0 raw).mpr h0
        have h2 : minNat (x :: xs) ≤ 0 := foldlMin_le xs x 0 h1
        omega
    show (if minNat (x :: xs) = 0 then ((x :: xs).map (fun p => p + 1), x + 1)
          else (x :: xs, x)).1
        = if 0 ∈ raw then (x :: xs).map (fun p => p + 1) else x :: xs
    by_cases h0 : 0 ∈ raw
    · rw [if_pos (hiff.mpr h0), if_pos h0]
    · rw [if_neg (fun hc => h0 (hiff.mp hc)), if_neg h0]

/-! ## C3: cached-on-disk check -/

/-- C3 (counterexample): a cache directory that holds only the index
file is treated as cached by the current generation's check in
`SearchService.search` (`curNeedsDownload` is false, so no download is
attempted), although the both-files rule (`isCachedOnDisk`) deems the
artifact absent — so the claim that the next materialization attempt
treats such a document as uncached is false on the current generation. -/
theorem c3_counterexample :
    curNeedsDownload (some [idxFileName]) = false
    ∧ isCachedOnDisk [idxFileName] = false := ⟨rfl, by decide⟩

/-- C3 (amended): the previous generation's
`VectorstoreManager._is_cached_on_disk` reports true exactly when both
artifact files are present; with only the index file on disk it reports
false, and the previous generation's `get_vectorstore` then performs the
download. -/
theorem c3_is_cached_amended :
    (∀ files : List String,
        isCachedOnDisk files = true ↔ (idxFileName ∈ files ∧ pklFileName ∈ files))
    ∧ isCachedOnDisk [idxFileName] = false
    ∧ getVectorstorePrevRun none [idxFileName] (Except.ok 7) = Except.ok (7, true) := by
  refine ⟨?_, by decide, rfl⟩
  intro files
  show (files.elem idxFileName && files.elem pklFileName) = true ↔ _
  rw [Bool.and_eq_true, List.elem_iff, List.elem_iff]

/-! ## C4: concurrent materialization -/

/-- C4 (counterexample): `VectorstoreManager.get_vectorstore` takes no
lock, so the interleaving in which both calls pass the memory- and
disk-cache checks before either downloads performs the download-and-load
sequence twice from a cold cache, and the two calls return distinct
loaded indexes — refuting at-most-one in-flight materialization and the
shared-result guarantee. -/
theorem c4_counterexample :
    (runSched racySched coldConfig).sh.downloads = 2
    ∧ (runSched racySched coldConfig).sh.loads = 2
    ∧ (runSched racySched coldConfig).t1.pc = VsPc.done
    ∧ (runSched racySched coldConfig).t2.pc = VsPc.done
    ∧ (runSched racySched coldConfig).t1.res ≠ (runSched racySched coldConfig).t2.res := by
  exact ⟨rfl, rfl, rfl, rfl, by decide⟩

/-- C4 (amended): when the two calls do not interleave (the first runs
to completion before the second starts) exactly one download and one
load occur, and both calls return the same loaded index. -/
theorem c4_sequential_amended :
    (runSched seqSched coldConfig).sh.downloads = 1
    ∧ (runSched seqSched coldConfig).sh.loads = 1
    ∧ (runSched seqSched coldConfig).t1.pc = VsPc.done
    ∧ (runSched seqSched coldConfig).t2.pc = VsPc.done
    ∧ (runSched seqSched coldConfig).t1.res = some 0
    ∧ (runSched seqSched coldConfig).t2.res = some 0 :=
  ⟨rfl, rfl, rfl, rfl, rfl, rfl⟩

/-! ## C5: injectivity of the cache-directory transform -/

/-- `replaceBack` is the identity on backslash-free strings. -/
theorem replaceBack_eq_self (l : List Char) (h : ∀ c ∈ l, c ≠ '\\') :
    replaceBack l = l := by
  induction l with
  | nil => rfl
  | cons c cs ih =>
    show (if c = '\\' then '/' else c) :: replaceBack cs = c :: cs
    rw [if_neg (h c (List.mem_cons_self c cs)),
      ih (fun c' hc' => h c' (List.mem_cons_of_mem _ hc'))]

/-- `slashToDunder` is injective on underscore-free strings. -/
theorem slashToDunder_inj (l1 : List Char) :
    ∀ l2 : List Char, (∀ c ∈ l1, c ≠ '_') → (∀ c ∈ l2, c ≠ '_') →
    slashToDunder l1 = slashToDunder l2 → l1 = l2 := by
  induction l1 with
  | nil =>
    intro l2 _ _ heq
    cases l2 with
    | nil => rfl
    | cons b bs =>
      exfalso
      unfold slashToDunder at heq
      split_ifs at heq
  | cons a as ih =>
    intro l2 h1 h2 heq
    cases l2 with
    | nil =>
      exfalso
      unfold slashToDunder at heq
      split_ifs at heq
    | cons b bs =>
      by_cases ha : a = '/'
      · by_cases hb : b = '/'
        · subst ha
          subst hb
          simp only [slashToDunder, if_pos rfl] at heq
          injection heq with _ heq
          injection heq with _ heq
          rw [ih bs (fun c hc => h1 c (List.mem_cons_of_mem _ hc))
            (fun c hc => h2 c (List.mem_cons_of_mem _ hc)) heq]
        · exfalso
          subst ha
          simp only [slashToDunder, if_pos rfl, if_neg hb] at heq
          injection heq with hhd _
          exact h2 b (List.mem_cons_self b bs) hhd.symm
      · by_cases hb : b = '/'
        · exfalso
          subst hb
          simp only [slashToDunder, if_neg ha, if_pos rfl] at heq
          injection heq with hhd _
          exact h1 a (List.mem_cons_self a as) hhd
        · simp only [slashToDunder, if_neg ha, if_neg hb] at heq
          injection heq with hhd htl
          rw [hhd, ih bs (fun c hc => h1 c (List.mem_cons_of_mem _ hc))
            (fun c hc => h2 c (List.mem_cons_of_mem _ hc)) htl]

/-- C5 (counterexample): the transform of
`VectorstoreManager._local_dir_for_doc` is not injective — the distinct
document ids `a/b/c` and `a__b/c` (both slash-delimited paths of 2+
segments) map to the same cache directory `a__b__c`. -/
theorem c5_counterexample :
    localDirForDoc "a/b/c" = localDirForDoc "a__b/c"
    ∧ ("a/b/c" : String) ≠ "a__b/c" := ⟨rfl, by decide⟩

/-- C5 (amended): the transform is injective on document ids that
contain neither the replacement character `_` nor a backslash: two such
ids with the same cache directory are equal. -/
theorem c5_safe_transform_amended (s t : String)
    (hs : ∀ c ∈ s.data, c ≠ '_' ∧ c ≠ '\\')
    (ht : ∀ c ∈ t.data, c ≠ '_' ∧ c ≠ '\\')
    (heq : localDirForDoc s = localDirForDoc t) : s = t := by
  unfold localDirForDoc at heq
  rw [replaceBack_eq_self s.data (fun c hc => (hs c hc).2),
    replaceBack_eq_self t.data (fun c hc => (ht c hc).2)] at heq
  have hdata := slashToDunder_inj s.data t.data
    (fun c hc => (hs c hc).1) (fun c hc => (ht c hc).1) heq
  cases s
  cases t
  exact congrArg String.mk hdata

/-- C5 (witness): the amended theorem applied at a concrete
underscore-free id. -/
theorem c5_witness : ("A/2020/x" : String) = "A/2020/x" :=
  c5_safe_transform_amended "A/2020/x" "A/2020/x" (by decide) (by decide) rfl

/-! ## C6: catalog build failure -/

/-- C6 (counterexample): the current generation's
`BlobService.list_blobs_hierarchy` wraps its scan in a
`try/except Exception` that only prints, so a listing failure mid-scan
silently yields the truncated hierarchy built so far — indistinguishable
from a successful scan of the same names — instead of failing the whole
operation. -/
theorem c6_counterexample :
    listBlobsHierarchy ["pdfs/Cat/2020/file.pdf"] true
      = [("Cat", [("2020", [⟨"file.pdf", "pdfs/Cat/2020/file.pdf", "Cat/2020/file"⟩])])]
    ∧ listBlobsHierarchy ["pdfs/Cat/2020/file.pdf"] true
      = listBlobsHierarchy ["pdfs/Cat/2020/file.pdf"] false := ⟨rfl, rfl⟩

/-- C6 (amended): the previous generation's
`build_doc_index_from_blob` has no exception handler, so a mid-scan
listing failure fails the whole build with a catalog-unavailable error
(the caller's previously cached catalog, when present, simply remains in
use), and a successful result is always the full catalog of the complete
listing — never a truncated one. -/
theorem c6_catalog_failure_amended (vp : String) (names : List String) (failed : Bool) :
    (failed = true → buildDocIndexE vp names failed = Except.error CatalogErr.catalogUnavailable)
    ∧ (∀ c, buildDocIndexE vp names failed = Except.ok c →
        failed = false ∧ c = buildDocIndexFromBlob vp names) := by
  constructor
  · intro h
    simp [buildDocIndexE, h]
  · intro c hc
    cases failed with
    | true => simp [buildDocIndexE] at hc
    | false =>
      simp only [buildDocIndexE, if_neg Bool.false_ne_true, Except.ok.injEq] at hc
      exact ⟨rfl, hc.symm⟩

/-- C6 (witness): the failing-listing instance of the amended theorem. -/
theorem c6_witness :
    buildDocIndexE "vectorstores" [] true = Except.error CatalogErr.catalogUnavailable :=
  (c6_catalog_failure_amended "vectorstores" [] true).1 rfl

/-! ## C7: catalog grouping and bucket ordering -/

/-- Looking up a key after mapping the values. -/
theorem lookup_map_snd {β γ : Type} (l : List (String × β)) (k : String) (f : β → γ) :
    List.lookup k (l.map (fun p => (p.1, f p.2))) = (List.lookup k l).map f := by
  induction l with
  | nil => rfl
  | cons p rest ih =>
    simp only [List.map_cons, List.lookup]
    cases hk : k == p.1 with
    | true => rfl
    | false => exact ih

/-- Every bucket of a sorted catalog is an insertion sort of some list. -/
theorem catalogBucket_sortCatalog (c : Catalog) (cat yr : String) (es : List DocEntry)
    (h : catalogBucket (sortCatalog c) cat yr = some es) :
    ∃ es0, es = List.insertionSort labelRel es0 := by
  unfold catalogBucket sortCatalog at h
  rw [lookup_map_snd] at h
  cases hc : List.lookup cat c with
  | none => rw [hc] at h; simp at h
  | some ys =>
    rw [hc] at h
    simp only [Option.map_some'] at h
    rw [lookup_map_snd] at h
    cases hy : List.lookup yr ys with
    | none => rw [hy] at h; simp at h
    | some es0 =>
      rw [hy] at h
      simp only [Option.map_some'] at h
      exact ⟨es0, (Option.some.injEq _ _ ▸ h :).symm⟩

/-- C7: `build_doc_index_from_blob` groups by the first two DocumentId
segments — the two example keys yield the single category `A` with years
`2020` and `2021`, each holding the one entry with id `A/2020/x` and
`A/2021/y` respectively — and every (category, year) bucket of any built
catalog is sorted by label. -/
theorem c7_catalog_grouping :
    buildDocIndexFromBlob "vectorstores"
        ["vectorstores/A/2020/x/index.faiss", "vectorstores/A/2021/y/index.faiss"]
      = [("A", [("2020", [⟨"A/2020/x", "x", "2020", "A/2020/x.pdf", "A/2020/x"⟩]),
                ("2021", [⟨"A/2021/y", "y", "2021", "A/2021/y.pdf", "A/2021/y"⟩])])]
    ∧ (∀ (vp : String) (names : List String) (cat yr : String) (es : List DocEntry),
        catalogBucket (buildDocIndexFromBlob vp names) cat yr = some es →
        List.Sorted labelRel es) := by
  constructor
  · rfl
  · intro vp names cat yr es h
    rw [show buildDocIndexFromBlob vp names
        = sortCatalog (names.foldl (catalogAdd (stripSlashes vp.data ++ ['/'])) [])
        from rfl] at h
    obtain ⟨es0, rfl⟩ := catalogBucket_sortCatalog _ cat yr es h
    exact List.sorted_insertionSort labelRel es0

/-- C7 (witness): the sortedness part applied at the `A`/`2020` bucket
of the example catalog. -/
theorem c7_witness :
    List.Sorted labelRel [⟨"A/2020/x", "x", "2020", "A/2020/x.pdf", "A/2020/x"⟩] :=
  c7_catalog_grouping.2 "vectorstores"
    ["vectorstores/A/2020/x/index.faiss", "vectorstores/A/2021/y/index.faiss"]
    "A" "2020" _ rfl

/-! ## C8: load failure handling -/

/-- C8 (counterexample): the previous generation's
`VectorstoreManager.get_vectorstore` has no handler around
`FAISS.load_local`, so with a cold memory cache and a corrupt on-disk
artifact the load failure propagates out of the query path instead of
being turned into an empty result set. -/
theorem c8_counterexample :
    getVectorstorePrevRun none [idxFileName, pklFileName] (Except.error ())
      = Except.error () := rfl

/-- C8 (amended): the current generation's `SearchService.search`
catches the load failure and returns the empty result set, and the
previous generation's `get_vectorstore` propagates it to its caller. -/
theorem c8_load_failure_amended (dirFiles : Option (List String)) (dl : List String)
    (loadRes : Except Unit (List RawChunk)) (h : loadRes = Except.error ()) :
    searchCur dirFiles dl loadRes = []
    ∧ ∀ disk : List String, getVectorstorePrevRun none disk (Except.error ())
        = Except.error () := by
  subst h
  refine ⟨?_, fun disk => rfl⟩
  unfold searchCur
  split
  · rfl
  · rfl

/-- C8 (witness): the amended theorem at a concrete warm cache. -/
theorem c8_witness : searchCur (some [idxFileName, pklFileName]) [] (Except.error ()) = [] :=
  (c8_load_failure_amended (some [idxFileName, pklFileName]) [] (Except.error ()) rfl).1

/-! ## C9: page fallback -/

/-- C9 (counterexample): a chunk with no page metadata whose body reads
`Page 0` has `0` recovered by the regex fallback, but the Python
falsiness check `if not page_num` then replaces it with `1` — the
recovered number is not used as-is. -/
theorem c9_counterexample :
    extractPageNum "Page 0" = some 0 ∧ processPage none "Page 0" = 1 :=
  ⟨by decide, by decide⟩

/-- C9 (amended): in the current generation's `SearchService.search`, a
page recovered by the regex fallback from a chunk with no metadata is
used as-is (not incremented) whenever it is nonzero; when nothing is
recovered — or the recovered value is `0` — the page defaults to `1`;
every processed page is at least `1` and every loaded chunk yields a
processed result, so none is omitted.  (The previous generation has no
fallback at all: `pagesRawOf` drops chunks without metadata from the
citation set.) -/
theorem c9_page_fallback_amended (content : String) (meta : Option Nat)
    (chunks : List RawChunk) :
    (∀ n, extractPageNum content = some n → n ≠ 0 → processPage none content = n)
    ∧ (extractPageNum content = none → processPage none content = 1)
    ∧ 1 ≤ processPage meta content
    ∧ (searchCur (some [idxFileName, pklFileName]) [] (Except.ok chunks)).length
        = chunks.length := by
  refine ⟨?_, ?_, ?_, ?_⟩
  · intro n hn hn0
    show (match extractPageNum content with
          | none => 1
          | some n => if n = 0 then 1 else n) = n
    rw [hn]
    simp [hn0]
  · intro hn
    show (match extractPageNum content with
          | none => 1
          | some n => if n = 0 then 1 else n) = 1
    rw [hn]
  · cases meta with
    | some p =>
      show 1 ≤ if p + 1 = 0 then 1 else p + 1
      split <;> omega
    | none =>
      show 1 ≤ (match extractPageNum content with
          | none => 1
          | some n => if n = 0 then 1 else n)
      cases extractPageNum content with
      | none => exact le_refl 1
      | some n =>
        show 1 ≤ if n = 0 then 1 else n
        split <;> omega
  · show (chunks.map procChunk).length = chunks.length
    exact List.length_map chunks procChunk

/-- C9 (witness): the amended theorem at a chunk whose body reads
`Page 42`: the recovered page is used as-is and the processed result
list covers the chunk. -/
theorem c9_witness :
    processPage none "Page 42" = 42
    ∧ (searchCur (some [idxFileName, pklFileName]) []
        (Except.ok [⟨none, "Page 42"⟩])).length = 1 := by
  have h := c9_page_fallback_amended "Page 42" none [⟨none, "Page 42"⟩]
  exact ⟨h.1 42 (by decide) (by decide), h.2.2.2⟩

/-! ## C10: path traversal rejection -/

/-- `splitSlash` never returns the empty list. -/
theorem splitSlash_ne_nil (l : List Char) : splitSlash l ≠ [] := by
  cases l with
  | nil => simp [splitSlash]
  | cons c rest =>
    unfold splitSlash
    split
    · simp
    · cases h : splitSlash rest <;> simp

/-- A nonempty head segment of `splitSlash` is a head of the string. -/
theorem splitSlash_cons_head (r : List Char) (d : Char) (s : List Char)
    (ss : List (List Char)) (h : splitSlash r = (d :: s) :: ss) :
    ∃ r', r = d :: r' ∧ splitSlash r' = s :: ss := by
  cases r with
  | nil => simp [splitSlash] at h
  | cons c rest =>
    unfold splitSlash at h
    by_cases hc : c = '/'
    · rw [if_pos hc] at h
      injection h with h1 _
      simp at h1
    · rw [if_neg hc] at h
      cases hr : splitSlash rest with
      | nil => exact absurd hr (splitSlash_ne_nil rest)
      | cons s0 ss0 =>
        rw [hr] at h
        injection h with h1 h2
        injection h1 with hd ht
        exact ⟨rest, by rw [hd], by rw [hr, ht, h2]⟩

/-- `hasDotDot` is monotone under cons. -/
theorem hasDotDot_cons (c : Char) (rest : List Char) (h : hasDotDot rest = true) :
    hasDotDot (c :: rest) = true := by
  cases rest with
  | nil => simp [hasDotDot] at h
  | cons b r =>
    unfold hasDotDot
    rw [h, Bool.or_true]

/-- A `..` segment of the split path makes `'..' in s` true. -/
theorem hasDotDot_of_segment : ∀ l : List Char, ['.', '.'] ∈ splitSlash l →
    hasDotDot l = true := by
  intro l
  induction l with
  | nil =>
    intro h
    simp [splitSlash] at h
  | cons c rest ih =>
    intro h
    unfold splitSlash at h
    by_cases hc : c = '/'
    · rw [if_pos hc] at h
      rcases List.mem_cons.mp h with h1 | h1
      · simp at h1
      · exact hasDotDot_cons c rest (ih h1)
    · rw [if_neg hc] at h
      cases hr : splitSlash rest with
      | nil => exact absurd hr (splitSlash_ne_nil rest)
      | cons s0 ss0 =>
        rw [hr] at h
        rcases List.mem_cons.mp h with h1 | h1
        · injection h1 with hd ht
          obtain ⟨r', hrest, _⟩ :=
            splitSlash_cons_head rest '.' [] ss0 (by rw [hr, ← ht])
          subst hrest
          rw [← hd]
          simp [hasDotDot]
        · have hmem : ['.', '.'] ∈ splitSlash rest := by
            rw [hr]
            exact List.mem_cons_of_mem _ h1
          exact hasDotDot_cons c rest (ih hmem)

/-- A leading separator survives normalization as a leading slash. -/
theorem startsSlash_normalize (p : List Char) (h : startsWithSep p = true) :
    startsSlash (normalizePath p) = true := by
  cases p with
  | nil => simp [startsWithSep] at h
  | cons c rest =>
    simp only [startsWithSep, Bool.or_eq_true, decide_eq_true_eq] at h
    show startsSlash ((if c = '\\' then '/' else c) :: rest.map _) = true
    rcases h with h | h
    · rw [if_neg (by rw [h]; decide)]
      simp [startsSlash, h]
    · rw [if_pos h]
      simp [startsSlash]

/-- C10: `serve_pdf` rejects every relative path containing a
parent-directory segment or beginning with a path separator as invalid,
performing no object-store call. -/
theorem c10_path_traversal (p pdfPre : List Char) (ex : List Char → Bool)
    (h : hasParentSegment p = true ∨ startsWithSep p = true) :
    servePdf p pdfPre ex = (PdfResult.invalidPath, []) := by
  have hcond : (hasDotDot (normalizePath p) || startsSlash (normalizePath p)) = true := by
    rcases h with h | h
    · rw [hasDotDot_of_segment (normalizePath p) (of_decide_eq_true h), Bool.true_or]
    · rw [startsSlash_normalize p h, Bool.or_true]
  unfold servePdf
  simp [hcond]

/-- C10 (witness): the theorem at `../../etc/passwd` and
`/etc/passwd`, against a store that claims every blob exists. -/
theorem c10_witness :
    servePdf "../../etc/passwd".data "pdfs".data (fun _ => true)
      = (PdfResult.invalidPath, [])
    ∧ servePdf "/etc/passwd".data "pdfs".data (fun _ => true)
      = (PdfResult.invalidPath, []) :=
  ⟨c10_path_traversal _ _ _ (Or.inl (by decide)),
   c10_path_traversal _ _ _ (Or.inr (by decide))⟩
